import Mathlib

/-!
# Verification of the skycard-achievement-scanner analytics core

A shallow embedding of the repository's algorithmic core, translated from
the TypeScript sources:

* `src/operations/shared/flight-processing.ts` — record normalizers
  (`transformToBackwardFlightEntry`, `transformToForwardFlightEntry`),
  the retry wrappers (`fetchArrivalsWithRetry`, `fetchDeparturesWithRetry`)
  and `analyzeAirportsByDistance`;
* `src/operations/shared/window-analysis.ts` — `findOptimalWindows`;
* `src/operations/shared/analysis.ts` — `analyzeAirportsByDiversity`,
  `analyzeDeparturesByDiversity`;
* `src/operations/flights-by-type.ts` — `flightsByTypes`;
* `src/operations/shared/constants.ts` and the constants file holding
  `WINDOW_SIZE_MS`.

JavaScript numbers that hold epoch timestamps are modelled as `Int`,
`undefined`/`null` as `Option`, JS `Set` insertion as appending a key not
yet present to a list, `Array.prototype.sort` (stable in the engines the
repo targets) as `List.mergeSort`, and a thrown error as `Except.error`.
JS truthiness tests on strings (`if (code)`, `code || "UNKNOWN"`) are
modelled as a test against the empty string.
-/

namespace Skycard

/-! ## Raw provider records (`src/types/flight-data.ts`) -/

/-- The `time` block of a raw `FlightData` record: `scheduled` is a pair of
plain numbers, `real` and `estimated` are nullable. -/
structure RawTimes where
  scheduledDeparture : Int
  scheduledArrival : Int
  realDeparture : Option Int
  realArrival : Option Int
  estimatedDeparture : Option Int
  estimatedArrival : Option Int
deriving DecidableEq, Repr

/-- A country inside an airport position (`position.country`). -/
structure CountryInfo where
  name : String
  code : String
deriving DecidableEq, Repr

/-- An airport position (`position` of `FlightAirportInfo`). -/
structure PositionInfo where
  latitude : Int
  longitude : Int
  country : CountryInfo
  regionCity : String
deriving DecidableEq, Repr

/-- IATA/ICAO code pair (`code` of `FlightAirportInfo`). -/
structure CodeInfo where
  iata : String
  icao : String
deriving DecidableEq, Repr

/-- An airport reference of a raw record (`FlightAirportInfo`): `code` and
`position` are both optional. -/
structure AirportRef where
  code : Option CodeInfo
  position : Option PositionInfo
deriving DecidableEq, Repr

/-- The parts of a raw `FlightData` record the normalizers read:
`identification.number.default`, `status.live`, `airport.origin?`,
`airport.destination?` and the optional `time` block. -/
structure RawFlight where
  numberDefault : String
  statusLive : Bool
  origin : Option AirportRef
  destination : Option AirportRef
  time : Option RawTimes
deriving DecidableEq, Repr

/-! ## Normalized entries (`src/operations/shared/types.ts`) -/

/-- The `status` field of a normalized entry. -/
inductive FlightStatus where
  | scheduled
  | departed
  | arrived
deriving DecidableEq, Repr

/-- Latitude/longitude pair stored on a backward entry's origin. -/
structure Coordinates where
  latitude : Int
  longitude : Int
deriving DecidableEq, Repr

/-- The `origin` block of a `BackwardFlightEntry`. -/
structure OriginInfo where
  country : Option String
  code : Option String
  name : Option String
  coordinates : Option Coordinates
deriving DecidableEq, Repr

/-- `BackwardFlightEntry` of `types.ts`. -/
structure BackwardFlightEntry where
  target : String
  live : Bool
  status : FlightStatus
  code : String
  time : Int
  origin : OriginInfo
deriving DecidableEq, Repr

/-- The `destination` block of a `ForwardFlightEntry`: its `country` keeps
the whole raw country object. -/
structure DestinationInfo where
  country : Option CountryInfo
  code : Option String
  name : Option String
deriving DecidableEq, Repr

/-- `ForwardFlightEntry` of `types.ts`. -/
structure ForwardFlightEntry where
  live : Bool
  status : FlightStatus
  code : String
  time : Int
  destination : DestinationInfo
deriving DecidableEq, Repr

/-! ## The record normalizers (`flight-processing.ts`) -/

/-- `transformToBackwardFlightEntry(apiResponse, targetAirport)` of
`flight-processing.ts`: status from the nested conditional on
`time?.real.departure` / `time.real.arrival`, canonical time from
`(time?.real.departure ?? time?.estimated.departure ??
time?.scheduled.departure ?? 0) * 1000`, origin fields through the
optional chains of the source. -/
def transformToBackwardFlightEntry (apiResponse : RawFlight) (targetAirport : String) :
    BackwardFlightEntry :=
  let time := apiResponse.time
  let origin := apiResponse.origin
  let status : FlightStatus :=
    match (apiResponse.time.bind (·.realDeparture)) with
    | some _ =>
      match (apiResponse.time.bind (·.realArrival)) with
      | some _ => .arrived
      | none => .departed
    | none => .scheduled
  { target := targetAirport
    live := apiResponse.statusLive
    status := status
    code := apiResponse.numberDefault
    time :=
      ((time.bind (·.realDeparture)).getD
        ((time.bind (·.estimatedDeparture)).getD
          ((time.map (·.scheduledDeparture)).getD 0))) * 1000
    origin :=
      { country := (origin.bind (·.position)).map (·.country.name)
        code := (origin.bind (·.code)).map (·.iata)
        name := (origin.bind (·.position)).map (·.regionCity)
        coordinates := (origin.bind (·.position)).map
          (fun p => { latitude := p.latitude, longitude := p.longitude }) } }

/-- `transformToForwardFlightEntry(apiResponse)` of `flight-processing.ts`:
the same status and canonical-time expressions, destination fields through
the source's optional chains. -/
def transformToForwardFlightEntry (apiResponse : RawFlight) : ForwardFlightEntry :=
  let time := apiResponse.time
  let destination := apiResponse.destination
  let status : FlightStatus :=
    match (apiResponse.time.bind (·.realDeparture)) with
    | some _ =>
      match (apiResponse.time.bind (·.realArrival)) with
      | some _ => .arrived
      | none => .departed
    | none => .scheduled
  { live := apiResponse.statusLive
    status := status
    code := apiResponse.numberDefault
    time :=
      ((time.bind (·.realDeparture)).getD
        ((time.bind (·.estimatedDeparture)).getD
          ((time.map (·.scheduledDeparture)).getD 0))) * 1000
    destination :=
      { country := (destination.bind (·.position)).map (·.country)
        code := (destination.bind (·.code)).map (·.iata)
        name := (destination.bind (·.position)).map (·.regionCity) } }

/-- The status rule exactly as the specification words it: `arrived` if the
raw real-arrival timestamp is present, else `departed` if the raw
real-departure timestamp is present, else `scheduled`. -/
def statusSpecRule (time : Option RawTimes) : FlightStatus :=
  match time with
  | none => .scheduled
  | some t =>
    if t.realArrival.isSome then .arrived
    else if t.realDeparture.isSome then .departed
    else .scheduled

/-- The status rule the code actually implements: `arrived` if both the raw
real-departure and real-arrival timestamps are present, `departed` if only
the real-departure is present, `scheduled` otherwise. -/
def statusCodeRule (time : Option RawTimes) : FlightStatus :=
  match time with
  | none => .scheduled
  | some t =>
    if t.realDeparture.isSome then
      (if t.realArrival.isSome then .arrived else .departed)
    else .scheduled

/-- A raw record whose `time` block has a real arrival but no real
departure (a record the provider reports as landed without a recorded
take-off time). -/
def c1raw : RawFlight :=
  { numberDefault := "LH123"
    statusLive := false
    origin := none
    destination := none
    time := some
      { scheduledDeparture := 100
        scheduledArrival := 200
        realDeparture := none
        realArrival := some 210
        estimatedDeparture := none
        estimatedArrival := none } }

/-- C1, counterexample: on a raw record with a real arrival but no real
departure both normalizers derive `scheduled`, while the claimed rule
(`arrived` whenever real-arrival is present) demands `arrived`. -/
theorem c1_status_rule_counterexample :
    (transformToBackwardFlightEntry c1raw "HAM").status = FlightStatus.scheduled ∧
    (transformToForwardFlightEntry c1raw).status = FlightStatus.scheduled ∧
    statusSpecRule c1raw.time = FlightStatus.arrived ∧
    (transformToBackwardFlightEntry c1raw "HAM").status ≠ statusSpecRule c1raw.time := by
  refine ⟨rfl, rfl, rfl, ?_⟩
  decide

/-- C1, amended: for every raw record, the derived status is `arrived` if
both the raw real-departure and real-arrival timestamps are present, else
`departed` if the raw real-departure timestamp is present, else
`scheduled`; the same rule is applied identically by
`transformToBackwardFlightEntry` and `transformToForwardFlightEntry`. -/
theorem c1_status_rule_amended (raw : RawFlight) (target : String) :
    (transformToBackwardFlightEntry raw target).status = statusCodeRule raw.time ∧
    (transformToForwardFlightEntry raw).status = statusCodeRule raw.time := by
  rcases raw with ⟨num, live, og, dst, time⟩
  rcases time with _ | ⟨sd, sa, rd, ra, ed, ea⟩
  · exact ⟨rfl, rfl⟩
  · rcases rd with _ | rd <;> rcases ra with _ | ra <;>
      simp [transformToBackwardFlightEntry, transformToForwardFlightEntry, statusCodeRule]

/-- The canonical event time exactly as the specification words it: the
first present value of raw real departure, else estimated departure, else
scheduled departure, else 0, converted from seconds to milliseconds. -/
def canonicalEventTimeSpec (time : Option RawTimes) : Int :=
  (match time with
   | none => 0
   | some t =>
     match t.realDeparture with
     | some v => v
     | none =>
       match t.estimatedDeparture with
       | some v => v
       | none => t.scheduledDeparture) * 1000

/-- C7: both normalizers set the canonical event time to the first present
value of real departure, else estimated departure, else scheduled
departure, else 0, multiplied by 1000. -/
theorem c7_canonical_event_time (raw : RawFlight) (target : String) :
    (transformToBackwardFlightEntry raw target).time = canonicalEventTimeSpec raw.time ∧
    (transformToForwardFlightEntry raw).time = canonicalEventTimeSpec raw.time := by
  rcases raw with ⟨num, live, og, dst, time⟩
  rcases time with _ | ⟨sd, sa, rd, ra, ed, ea⟩
  · exact ⟨rfl, rfl⟩
  · rcases rd with _ | rd <;> rcases ed with _ | ed <;>
      simp [transformToBackwardFlightEntry, transformToForwardFlightEntry,
        canonicalEventTimeSpec]

/-! ## The window optimizer (`src/operations/shared/window-analysis.ts`)

`findOptimalWindows` is generic over the entry type `T`; the embedding
keeps it generic over `α`, with the `time` field read through `timeOf` and
the key-extractor `getDestinationCode` as `getKey`.  `Date.now()` is the
explicit parameter `now`. -/

/-- `WINDOW_SIZE_MS = 30 * 60 * 1000` of the constants file. -/
def WINDOW_SIZE_MS : Int := 30 * 60 * 1000

/-- `flights.slice().sort((a, b) => a.time - b.time)`: a stable sort by the
entry's time (`Array.prototype.sort` is stable, so any stable sorting
algorithm models it; insertion sort is used because it is structural). -/
def sortByTime (timeOf : α → Int) (flights : List α) : List α :=
  List.insertionSort (fun a b => timeOf a ≤ timeOf b) flights

/-- JS `Set.prototype.add` on an insertion-ordered set of strings. -/
def setAdd (s : List String) (k : String) : List String :=
  if k ∈ s then s else s ++ [k]

/-- `TimeWindow<T>` of `types.ts`: `destinations` is the JS `Set` in
insertion order. -/
structure TimeWindow (α : Type) where
  start : Int
  stop : Int
  destinations : List String
  flights : List α
deriving DecidableEq, Repr

/-- One step of the inner loop's set building: `getDestinationCode(flight)`
is added when it is truthy (present and non-empty). -/
def keyStep (getKey : α → Option String) (s : List String) (g : α) : List String :=
  match getKey g with
  | some k => if k = "" then s else setAdd s k
  | none => s

/-- The inner loop's set of unique destinations over the members in
order. -/
def windowKeys (getKey : α → Option String) (members : List α) : List String :=
  members.foldl (keyStep getKey) []

/-- The window built from candidate start `f` with the remaining sorted
suffix `rest`: members are the scan from `f` up to the first entry past
`start + WINDOW_SIZE_MS`. -/
def mkWindow (timeOf : α → Int) (getKey : α → Option String) (f : α) (rest : List α) :
    TimeWindow α :=
  let start := timeOf f
  let stop := start + WINDOW_SIZE_MS
  let members := (f :: rest).takeWhile (fun g => timeOf g ≤ stop)
  { start := start
    stop := stop
    destinations := windowKeys getKey members
    flights := members }

/-- The outer loop of `findOptimalWindows` over candidate starts: skip a
start more than 15 minutes in the past, otherwise build its window and
update `(maxUniqueDestinations, bestWindows)` exactly as the source does. -/
def scanStarts (timeOf : α → Int) (getKey : α → Option String) (now : Int) :
    List α → Nat → List (TimeWindow α) → List (TimeWindow α)
  | [], _, best => best
  | f :: rest, maxU, best =>
    if timeOf f < now - WINDOW_SIZE_MS / 2 then
      scanStarts timeOf getKey now rest maxU best
    else
      let w := mkWindow timeOf getKey f rest
      if maxU < w.destinations.length then
        scanStarts timeOf getKey now rest w.destinations.length [w]
      else if w.destinations.length = maxU ∧ 0 < w.destinations.length then
        scanStarts timeOf getKey now rest maxU (best ++ [w])
      else
        scanStarts timeOf getKey now rest maxU best

/-- `findOptimalWindows(flights, getDestinationCode)` of
`window-analysis.ts`. -/
def findOptimalWindows (flights : List α) (timeOf : α → Int)
    (getKey : α → Option String) (now : Int) : List (TimeWindow α) :=
  if flights.isEmpty then []
  else scanStarts timeOf getKey now (sortByTime timeOf flights) 0 []

/-- The candidate windows, in candidate-start order: one window per entry
of the sorted input whose time is not more than 15 minutes before `now`. -/
def candWindows (timeOf : α → Int) (getKey : α → Option String) (now : Int) :
    List α → List (TimeWindow α)
  | [] => []
  | f :: rest =>
    (if timeOf f < now - WINDOW_SIZE_MS / 2 then []
     else [mkWindow timeOf getKey f rest]) ++ candWindows timeOf getKey now rest

/-- The greatest unique-key count among a list of windows. -/
def maxDiversity : List (TimeWindow α) → Nat
  | [] => 0
  | w :: ws => max w.destinations.length (maxDiversity ws)

/-- The best-window accumulator of the outer loop, expressed as a fold over
an already-built window list. -/
def foldBest : List (TimeWindow α) → Nat → List (TimeWindow α) → List (TimeWindow α)
  | [], _, best => best
  | w :: ws, maxU, best =>
    if maxU < w.destinations.length then
      foldBest ws w.destinations.length [w]
    else if w.destinations.length = maxU ∧ 0 < w.destinations.length then
      foldBest ws maxU (best ++ [w])
    else
      foldBest ws maxU best

/-- A minimal entry type used to run the optimizer on concrete inputs. -/
structure FEntry where
  time : Int
  key : Option String
deriving DecidableEq, Repr

/-- The outer loop is the best-window fold over the candidate windows. -/
theorem scanStarts_eq_foldBest (timeOf : α → Int) (getKey : α → Option String)
    (now : Int) (l : List α) :
    ∀ (maxU : Nat) (best : List (TimeWindow α)),
      scanStarts timeOf getKey now l maxU best =
        foldBest (candWindows timeOf getKey now l) maxU best := by
  induction l with
  | nil => intro maxU best; rfl
  | cons f rest ih =>
    intro maxU best
    by_cases h : timeOf f < now - WINDOW_SIZE_MS / 2
    · simp only [scanStarts, candWindows, if_pos h, List.nil_append]
      exact ih maxU best
    · simp only [scanStarts, candWindows, if_neg h, List.singleton_append, foldBest]
      split_ifs <;> exact ih _ _

/-- What the best-window fold computes: with running maximum `maxU` and
accumulator `best`, it returns all windows tied at the overall maximum when
some window beats `maxU`, and otherwise appends to `best` the windows tied
at `maxU` (none when `maxU = 0`). -/
theorem foldBest_characterization (ws : List (TimeWindow α)) :
    ∀ (maxU : Nat) (best : List (TimeWindow α)),
      foldBest ws maxU best =
        if maxU < maxDiversity ws then
          ws.filter (fun w => w.destinations.length = maxDiversity ws)
        else
          best ++
            (if 0 < maxU then
              ws.filter (fun w => w.destinations.length = maxU)
            else []) := by
  induction ws with
  | nil => intro maxU best; simp [foldBest, maxDiversity]
  | cons w ws ih =>
    intro maxU best
    have hmd : maxDiversity (w :: ws) = max w.destinations.length (maxDiversity ws) := rfl
    rw [foldBest]
    by_cases h1 : maxU < w.destinations.length
    · rw [if_pos h1, ih, hmd]
      by_cases h3 : w.destinations.length < maxDiversity ws
      · have hm : max w.destinations.length (maxDiversity ws) = maxDiversity ws := by
          omega
        rw [hm, if_pos h3, if_pos (show maxU < maxDiversity ws by omega)]
        simp only [List.filter_cons, decide_eq_true_eq]
        rw [if_neg (show ¬ w.destinations.length = maxDiversity ws by omega)]
      · have hm : max w.destinations.length (maxDiversity ws) =
            w.destinations.length := by omega
        rw [hm, if_neg h3, if_pos h1, if_pos (show 0 < w.destinations.length by omega)]
        simp only [List.filter_cons, decide_eq_true_eq]
        rw [if_pos True.intro, List.singleton_append]
    · rw [if_neg h1]
      by_cases h2 : w.destinations.length = maxU ∧ 0 < w.destinations.length
      · obtain ⟨heq, hpos⟩ := h2
        rw [if_pos ⟨heq, hpos⟩, ih, hmd]
        by_cases h3 : maxU < maxDiversity ws
        · have hm : max w.destinations.length (maxDiversity ws) = maxDiversity ws := by
            omega
          rw [hm, if_pos h3, if_pos h3]
          simp only [List.filter_cons, decide_eq_true_eq]
          rw [if_neg (show ¬ w.destinations.length = maxDiversity ws by omega)]
        · have hm : max w.destinations.length (maxDiversity ws) = maxU := by omega
          rw [hm, if_neg h3, if_neg (show ¬ maxU < maxU by omega),
            if_pos (show 0 < maxU by omega), if_pos (show 0 < maxU by omega)]
          simp only [List.filter_cons, decide_eq_true_eq]
          rw [if_pos heq, List.append_assoc, List.singleton_append]
      · rw [if_neg h2, ih, hmd]
        by_cases h3 : maxU < maxDiversity ws
        · have hm : max w.destinations.length (maxDiversity ws) = maxDiversity ws := by
            omega
          rw [hm, if_pos h3, if_pos (show maxU < maxDiversity ws by omega)]
          simp only [List.filter_cons, decide_eq_true_eq]
          rw [if_neg (show ¬ w.destinations.length = maxDiversity ws by omega)]
        · rw [if_neg h3,
            if_neg (show ¬ maxU < max w.destinations.length (maxDiversity ws) by omega)]
          by_cases h4 : 0 < maxU
          · have hne : w.destinations.length ≠ maxU := by
              rcases not_and_or.mp h2 with h | h
              · exact h
              · omega
            rw [if_pos h4, if_pos h4]
            simp only [List.filter_cons, decide_eq_true_eq]
            rw [if_neg hne]
          · rw [if_neg h4, if_neg h4]

/-- `findOptimalWindows` returns the candidate windows tied at the overall
maximum unique-key count when that maximum is positive, and nothing
otherwise. -/
theorem findOptimalWindows_characterization (flights : List α) (timeOf : α → Int)
    (getKey : α → Option String) (now : Int) :
    findOptimalWindows flights timeOf getKey now =
      if 0 < maxDiversity (candWindows timeOf getKey now (sortByTime timeOf flights)) then
        (candWindows timeOf getKey now (sortByTime timeOf flights)).filter
          (fun w =>
            w.destinations.length =
              maxDiversity (candWindows timeOf getKey now (sortByTime timeOf flights)))
      else [] := by
  unfold findOptimalWindows
  by_cases hf : flights.isEmpty
  · rcases flights with _ | ⟨f, rest⟩
    · simp [sortByTime, List.insertionSort, candWindows, maxDiversity]
    · simp at hf
  · rw [if_neg hf, scanStarts_eq_foldBest, foldBest_characterization]
    simp

/-- Every candidate window comes from a candidate start: a decomposition of
the scanned list at the start entry, whose time is not more than 15 minutes
before `now`. -/
theorem mem_candWindows (timeOf : α → Int) (getKey : α → Option String) (now : Int) :
    ∀ (l : List α) (w : TimeWindow α), w ∈ candWindows timeOf getKey now l →
      ∃ pre f rest, l = pre ++ f :: rest ∧
        ¬ timeOf f < now - WINDOW_SIZE_MS / 2 ∧ w = mkWindow timeOf getKey f rest := by
  intro l
  induction l with
  | nil => intro w hw; simp [candWindows] at hw
  | cons g rest ih =>
    intro w hw
    rw [candWindows] at hw
    rcases List.mem_append.mp hw with h | h
    · by_cases hg : timeOf g < now - WINDOW_SIZE_MS / 2
      · rw [if_pos hg] at h
        simp at h
      · rw [if_neg hg] at h
        simp at h
        exact ⟨[], g, rest, rfl, hg, h⟩
    · obtain ⟨pre, f, rest2, hl, hc, hw2⟩ := ih w h
      exact ⟨g :: pre, f, rest2, by rw [hl]; rfl, hc, hw2⟩

/-- Every returned window is a candidate window of the sorted input. -/
theorem mem_of_mem_findOptimalWindows (flights : List α) (timeOf : α → Int)
    (getKey : α → Option String) (now : Int) (w : TimeWindow α)
    (hw : w ∈ findOptimalWindows flights timeOf getKey now) :
    w ∈ candWindows timeOf getKey now (sortByTime timeOf flights) := by
  rw [findOptimalWindows_characterization] at hw
  by_cases h :
      0 < maxDiversity (candWindows timeOf getKey now (sortByTime timeOf flights))
  · rw [if_pos h] at hw
    exact List.mem_of_mem_filter hw
  · rw [if_neg h] at hw
    simp at hw

/-- Membership in the JS set after an `add`. -/
theorem mem_setAdd (s : List String) (a k : String) :
    k ∈ setAdd s a ↔ k ∈ s ∨ k = a := by
  unfold setAdd
  split_ifs with h
  · constructor
    · exact Or.inl
    · rintro (h2 | rfl)
      · exact h2
      · exact h
  · simp [List.mem_append]

/-- Membership in the inner loop's unique-destination set, with the fold's
accumulator generalized. -/
theorem mem_windowKeys_aux (getKey : α → Option String) (l : List α) :
    ∀ (init : List String) (k : String),
      (k ∈ l.foldl (keyStep getKey) init ↔
        k ∈ init ∨ (k ∈ l.filterMap getKey ∧ k ≠ "")) := by
  induction l with
  | nil => intro init k; simp
  | cons g rest ih =>
    intro init k
    rw [List.foldl_cons, ih, List.filterMap_cons]
    rcases hg : getKey g with _ | kg
    · simp [keyStep, hg]
    · simp only [keyStep, hg, List.mem_cons]
      split_ifs with hkg
      · subst hkg
        constructor
        · rintro (h | ⟨h, hne⟩)
          · exact Or.inl h
          · exact Or.inr ⟨Or.inr h, hne⟩
        · rintro (h | ⟨rfl | h, hne⟩)
          · exact Or.inl h
          · exact absurd rfl hne
          · exact Or.inr ⟨h, hne⟩
      · rw [mem_setAdd]
        constructor
        · rintro ((h | rfl) | ⟨h, hne⟩)
          · exact Or.inl h
          · exact Or.inr ⟨Or.inl rfl, hkg⟩
          · exact Or.inr ⟨Or.inr h, hne⟩
        · rintro (h | ⟨rfl | h, hne⟩)
          · exact Or.inl (Or.inl h)
          · exact Or.inl (Or.inr rfl)
          · exact Or.inr ⟨h, hne⟩

/-- The unique-destination set holds exactly the present, non-empty keys of
the members. -/
theorem mem_windowKeys (getKey : α → Option String) (members : List α) (k : String) :
    k ∈ windowKeys getKey members ↔ k ∈ members.filterMap getKey ∧ k ≠ "" := by
  have h := mem_windowKeys_aux getKey members [] k
  simpa [windowKeys] using h

/-- The sorted input is pairwise ordered by time. -/
theorem sortByTime_pairwise (timeOf : α → Int) (flights : List α) :
    List.Pairwise (fun a b => timeOf a ≤ timeOf b) (sortByTime timeOf flights) := by
  haveI : IsTotal α (fun a b => timeOf a ≤ timeOf b) := ⟨fun a b => le_total _ _⟩
  haveI : IsTrans α (fun a b => timeOf a ≤ timeOf b) :=
    ⟨fun a b c hab hbc => le_trans hab hbc⟩
  exact List.sorted_insertionSort _ flights

/-- In a pairwise-ordered list, everything `dropWhile` removes under a
downward-closed predicate fails the predicate. -/
theorem dropWhile_forall_not_of_pairwise {R : α → α → Prop} {p : α → Bool} :
    ∀ {l : List α}, List.Pairwise R l →
      (∀ a b, R a b → p b = true → p a = true) →
      ∀ g ∈ l.dropWhile p, p g = false := by
  intro l
  induction l with
  | nil => intro _ _ g hg; simp at hg
  | cons x xs ih =>
    intro hl hmono g hg
    rw [List.dropWhile_cons] at hg
    by_cases hx : p x = true
    · rw [if_pos hx] at hg
      exact ih hl.of_cons hmono g hg
    · rw [if_neg hx] at hg
      rcases List.mem_cons.mp hg with rfl | hg2
      · exact Bool.eq_false_iff.mpr hx
      · by_contra hpg
        have hpg2 : p g = true := eq_true_of_ne_false hpg
        exact hx (hmono x g ((List.pairwise_cons.mp hl).1 g hg2) hpg2)

/-- No window of a list beats the list's maximum diversity. -/
theorem le_maxDiversity_of_mem :
    ∀ {ws : List (TimeWindow α)} {w : TimeWindow α}, w ∈ ws →
      w.destinations.length ≤ maxDiversity ws := by
  intro ws
  induction ws with
  | nil => intro w hw; simp at hw
  | cons v vs ih =>
    intro w hw
    rcases List.mem_cons.mp hw with rfl | hw2
    · exact le_max_of_le_left le_rfl
    · exact le_max_of_le_right (ih hw2)

/-- C2: `findOptimalWindows` returns exactly the candidate windows — one
candidate per entry of the time-sorted input whose time is not more than 15
minutes before `now` — that achieve the strictly positive global maximum
unique-key count: no candidate window exceeds that maximum, every candidate
window tied at it is returned (in candidate order), and when the maximum is
zero nothing is returned. -/
theorem c2_optimal_window_selection (flights : List α) (timeOf : α → Int)
    (getKey : α → Option String) (now : Int) :
    (∀ w ∈ candWindows timeOf getKey now (sortByTime timeOf flights),
      w.destinations.length ≤
        maxDiversity (candWindows timeOf getKey now (sortByTime timeOf flights))) ∧
    findOptimalWindows flights timeOf getKey now =
      (if 0 < maxDiversity (candWindows timeOf getKey now (sortByTime timeOf flights))
       then
        (candWindows timeOf getKey now (sortByTime timeOf flights)).filter
          (fun w =>
            w.destinations.length =
              maxDiversity (candWindows timeOf getKey now (sortByTime timeOf flights)))
       else []) :=
  ⟨fun _ hw => le_maxDiversity_of_mem hw,
   findOptimalWindows_characterization flights timeOf getKey now⟩

/-- An input containing an entry whose extracted grouping key is the empty
string (defined, but excluded by the code's truthiness test). -/
def c3badFlights : List FEntry := [⟨0, some "A"⟩, ⟨1, some ""⟩]

/-- C3, counterexample: a returned window holds a member whose extracted
key is the defined string `""`, yet `""` is not in the window's unique-key
set, so the set does not equal the set of all defined keys of the
members. -/
theorem c3_unique_keys_counterexample :
    ∃ w ∈ findOptimalWindows c3badFlights FEntry.time FEntry.key 0,
      "" ∈ w.flights.filterMap FEntry.key ∧ "" ∉ w.destinations := by
  decide

/-- C3, amended: for every window returned by the optimizer, the end
timestamp equals the start timestamp plus exactly 1800000 ms, and the
unique-key set equals exactly the set of defined *non-empty* grouping keys
extracted from its member entries. -/
theorem c3_window_invariants (flights : List α) (timeOf : α → Int)
    (getKey : α → Option String) (now : Int) (w : TimeWindow α)
    (hw : w ∈ findOptimalWindows flights timeOf getKey now) :
    w.stop = w.start + 1800000 ∧
    ∀ k, (k ∈ w.destinations ↔ k ∈ w.flights.filterMap getKey ∧ k ≠ "") := by
  obtain ⟨pre, f, rest, hl, hc, rfl⟩ :=
    mem_candWindows timeOf getKey now _ w
      (mem_of_mem_findOptimalWindows flights timeOf getKey now w hw)
  constructor
  · show timeOf f + WINDOW_SIZE_MS = timeOf f + 1800000
    norm_num [WINDOW_SIZE_MS]
  · intro k
    exact mem_windowKeys getKey (mkWindow timeOf getKey f rest).flights k

/-- A one-entry input whose single window the amended C3 theorem is applied
to. -/
def c3exFlights : List FEntry := [⟨0, some "A"⟩]

/-- The window `findOptimalWindows` returns on `c3exFlights` at `now = 0`. -/
def c3exWindow : TimeWindow FEntry :=
  { start := 0, stop := 1800000, destinations := ["A"], flights := [⟨0, some "A"⟩] }

/-- Witness for the amended C3 theorem at a concrete input. -/
theorem c3_window_invariants_witness :
    c3exWindow.stop = c3exWindow.start + 1800000 ∧
    ∀ k, (k ∈ c3exWindow.destinations ↔
      k ∈ c3exWindow.flights.filterMap FEntry.key ∧ k ≠ "") :=
  c3_window_invariants c3exFlights FEntry.time FEntry.key 0 c3exWindow (by decide)

/-- C10: every returned window's member list is a contiguous run of the
time-sorted input beginning at the anchor entry: the members form an infix
of the sorted input whose following entries all lie past the window end,
the members are already sorted ascending by event time at construction, the
first member is the anchor whose time is the window start, and every member
lies within `[start, stop]`. -/
theorem c10_members_contiguous_sorted (flights : List α) (timeOf : α → Int)
    (getKey : α → Option String) (now : Int) (w : TimeWindow α)
    (hw : w ∈ findOptimalWindows flights timeOf getKey now) :
    (∃ pre post, sortByTime timeOf flights = pre ++ w.flights ++ post ∧
        ∀ g ∈ post, w.stop < timeOf g) ∧
    List.Chain' (fun a b => timeOf a ≤ timeOf b) w.flights ∧
    (∃ f rest2, w.flights = f :: rest2 ∧ timeOf f = w.start) ∧
    (∀ g ∈ w.flights, w.start ≤ timeOf g ∧ timeOf g ≤ w.stop) := by
  obtain ⟨pre, f, rest, hl, hc, rfl⟩ :=
    mem_candWindows timeOf getKey now _ w
      (mem_of_mem_findOptimalWindows flights timeOf getKey now w hw)
  have hstart : (mkWindow timeOf getKey f rest).start = timeOf f := rfl
  have hstop : (mkWindow timeOf getKey f rest).stop = timeOf f + WINDOW_SIZE_MS := rfl
  have hflights : (mkWindow timeOf getKey f rest).flights =
      (f :: rest).takeWhile (fun g => timeOf g ≤ timeOf f + WINDOW_SIZE_MS) := rfl
  have hsorted := sortByTime_pairwise timeOf flights
  rw [hl] at hsorted
  have hfr : List.Pairwise (fun a b => timeOf a ≤ timeOf b) (f :: rest) :=
    (List.pairwise_append.mp hsorted).2.1
  have htd :
      (f :: rest).takeWhile (fun g => timeOf g ≤ timeOf f + WINDOW_SIZE_MS) ++
        (f :: rest).dropWhile (fun g => timeOf g ≤ timeOf f + WINDOW_SIZE_MS) =
      f :: rest :=
    List.takeWhile_append_dropWhile _ _
  have hpf : (fun g => decide (timeOf g ≤ timeOf f + WINDOW_SIZE_MS)) f = true := by
    simp only [decide_eq_true_eq]
    have : (0 : Int) ≤ WINDOW_SIZE_MS := by norm_num [WINDOW_SIZE_MS]
    omega
  have hmem_sub :
      ((f :: rest).takeWhile
        (fun g => timeOf g ≤ timeOf f + WINDOW_SIZE_MS)).Sublist (f :: rest) :=
    List.takeWhile_sublist _
  refine ⟨⟨pre, (f :: rest).dropWhile (fun g => timeOf g ≤ timeOf f + WINDOW_SIZE_MS),
    ?_, ?_⟩, ?_, ?_, ?_⟩
  · rw [hl, hflights, List.append_assoc, htd]
  · intro g hg
    have hdrop :=
      dropWhile_forall_not_of_pairwise hfr
        (fun a b hab hpb => by
          simp only [decide_eq_true_eq] at hpb ⊢
          omega) g hg
    rw [hstop]
    simp only [decide_eq_false_iff_not, decide_eq_true_eq] at hdrop
    omega
  · exact (List.Pairwise.sublist hmem_sub hfr).chain'
  · refine ⟨f, rest.takeWhile (fun g => timeOf g ≤ timeOf f + WINDOW_SIZE_MS), ?_, hstart.symm⟩
    rw [hflights, List.takeWhile_cons, if_pos hpf]
  · intro g hg
    rw [hflights] at hg
    constructor
    · rw [hstart]
      rcases List.mem_cons.mp (List.Sublist.mem hg hmem_sub) with rfl | hg2
      · exact le_rfl
      · exact (List.pairwise_cons.mp hfr).1 g hg2
    · rw [hstop]
      have := List.mem_takeWhile_imp hg
      simpa only [decide_eq_true_eq] using this

/-! ## Airport ranking (`analysis.ts` and `analyzeAirportsByDistance` of
`flight-processing.ts`)

`Object.entries(flightsByOrigin)` is modelled as an association list in
entry order; `Date.now()` is the explicit `now`; JS `Infinity` as the
`nextFlightTime` sentinel is modelled as `none`; the provider library's
great-circle `getDistanceFrom` (not part of this repository) is the
abstract parameter `dist` giving the distance from the reference airport
to a coordinate pair. -/

/-- JS `x || "Unknown"` on an optional string field. -/
def truthyOr (s : Option String) (d : String) : String :=
  match s with
  | some x => if x = "" then d else x
  | none => d

/-- `AirportDiversity` of `types.ts`; `nextFlightTime = none` models the
JS `Infinity` sentinel. -/
structure AirportDiversity where
  code : String
  name : String
  country : String
  distinctDestinations : Nat
  totalFlights : Nat
  nextFlightTime : Option Int
  destinations : List String
deriving DecidableEq, Repr

/-- The `a.nextFlightTime - b.nextFlightTime` comparison under the
`Infinity` sentinel: `Infinity` is greater than every number and compares
equal to itself (`Infinity - Infinity` is `NaN`, which `sort` treats as
0). -/
def nftLe : Option Int → Option Int → Bool
  | _, none => true
  | none, some _ => false
  | some a, some b => a ≤ b

/-- The record `analyzeAirportsByDiversity` pushes for one
`[originCode, airportFlights]` entry, or `none` when the entry is skipped
(empty group, empty code, or the `"UNKNOWN"` sentinel). -/
def diversityRecord (originCode : String) (airportFlights : List BackwardFlightEntry)
    (now : Int) : Option AirportDiversity :=
  if airportFlights.isEmpty ∨ originCode = "" ∨ originCode = "UNKNOWN" then none
  else
    match airportFlights with
    | [] => none
    | firstFlight :: _ =>
      let destinations := airportFlights.foldl (keyStep (fun f => some f.target)) []
      let futureFlights :=
        sortByTime BackwardFlightEntry.time (airportFlights.filter (fun f => now ≤ f.time))
      some { code := originCode
             name := truthyOr firstFlight.origin.name "Unknown"
             country := truthyOr firstFlight.origin.country "Unknown"
             distinctDestinations := destinations.length
             totalFlights := airportFlights.length
             nextFlightTime := futureFlights.head?.map (·.time)
             destinations := destinations }

/-- The final sort's comparator of `analyzeAirportsByDiversity`:
`b.distinctDestinations - a.distinctDestinations` when they differ, else
`a.nextFlightTime - b.nextFlightTime`. -/
def diversityLe (a b : AirportDiversity) : Bool :=
  if b.distinctDestinations ≠ a.distinctDestinations then
    b.distinctDestinations ≤ a.distinctDestinations
  else nftLe a.nextFlightTime b.nextFlightTime

/-- `analyzeAirportsByDiversity(flightsByOrigin)` of `analysis.ts`. -/
def analyzeAirportsByDiversity
    (flightsByOrigin : List (String × List BackwardFlightEntry)) (now : Int) :
    List AirportDiversity :=
  List.insertionSort (fun a b => diversityLe a b = true)
    (flightsByOrigin.filterMap (fun p => diversityRecord p.1 p.2 now))

/-- The summary record of `analyzeDeparturesByDiversity` of
`analysis.ts`. -/
structure DepartureDiversity where
  sourceCode : String
  distinctDestinations : Nat
  totalFlights : Nat
  nextFlightTime : Option Int
  destinations : List String
deriving DecidableEq, Repr

/-- `analyzeDeparturesByDiversity(flights, sourceAirport)` of
`analysis.ts`: `null` on empty input is modelled as `none`. -/
def analyzeDeparturesByDiversity (flights : List ForwardFlightEntry)
    (sourceAirport : String) (now : Int) : Option DepartureDiversity :=
  if flights.isEmpty then none
  else
    let destinations := flights.foldl (keyStep (fun f => f.destination.code)) []
    let futureFlights :=
      sortByTime ForwardFlightEntry.time (flights.filter (fun f => now ≤ f.time))
    some { sourceCode := sourceAirport
           distinctDestinations := destinations.length
           totalFlights := flights.length
           nextFlightTime := futureFlights.head?.map (·.time)
           destinations := destinations }

/-- `AirportDistance` of `types.ts`. -/
structure AirportDistance where
  code : String
  name : String
  country : String
  distance : Int
  flightCount : Nat
deriving DecidableEq, Repr

/-- The record `analyzeAirportsByDistance` pushes for one
`[originCode, flights]` entry: skipped groups (empty, empty code,
`"UNKNOWN"`, or first member without coordinates) give `none`. -/
def distanceRecord (dist : Coordinates → Int) (originCode : String)
    (flights : List BackwardFlightEntry) : Option AirportDistance :=
  if flights.isEmpty ∨ originCode = "" ∨ originCode = "UNKNOWN" then none
  else
    match flights with
    | [] => none
    | firstFlight :: _ =>
      match firstFlight.origin.coordinates with
      | none => none
      | some c =>
        some { code := originCode
               name := truthyOr firstFlight.origin.name "Unknown"
               country := truthyOr firstFlight.origin.country "Unknown"
               distance := dist c
               flightCount := flights.length }

/-- `analyzeAirportsByDistance(flightsByOrigin, originAirport)` of
`flight-processing.ts`, with the reference airport's distance function
abstracted as `dist`. -/
def analyzeAirportsByDistance
    (flightsByOrigin : List (String × List BackwardFlightEntry))
    (dist : Coordinates → Int) : List AirportDistance :=
  List.insertionSort (fun a b => a.distance ≤ b.distance)
    (flightsByOrigin.filterMap (fun p => distanceRecord dist p.1 p.2))

/-- A group qualifies for the distance ranking per the claim's words:
non-empty, a known code, and coordinates available on some member. -/
def groupRankedClaim (p : String × List BackwardFlightEntry) : Bool :=
  !p.2.isEmpty && !(p.1 = "") && !(p.1 = "UNKNOWN") &&
    p.2.any (fun f => f.origin.coordinates.isSome)

/-- A group qualifies for the distance ranking per the code: non-empty, a
known code, and coordinates available on the *first* member. -/
def groupRankedCode (p : String × List BackwardFlightEntry) : Bool :=
  !p.2.isEmpty && !(p.1 = "") && !(p.1 = "UNKNOWN") &&
    (p.2.head?.bind (fun f => f.origin.coordinates)).isSome

/-- The `Infinity`-sentinel comparison is total. -/
theorem nftLe_total (x y : Option Int) : nftLe x y = true ∨ nftLe y x = true := by
  rcases x with _ | a <;> rcases y with _ | b <;> simp [nftLe] <;> omega

/-- The `Infinity`-sentinel comparison is transitive. -/
theorem nftLe_trans {x y z : Option Int} (h1 : nftLe x y = true)
    (h2 : nftLe y z = true) : nftLe x z = true := by
  rcases x with _ | a <;> rcases y with _ | b <;> rcases z with _ | c <;>
    simp [nftLe] at h1 h2 ⊢ <;> omega

/-- The diversity comparator, read as the ranking relation of the claim:
strictly more distinct destinations first, ties broken by the
next-flight-time comparison. -/
theorem diversityLe_iff (a b : AirportDiversity) :
    diversityLe a b = true ↔
      (b.distinctDestinations < a.distinctDestinations ∨
        (a.distinctDestinations = b.distinctDestinations ∧
          nftLe a.nextFlightTime b.nextFlightTime = true)) := by
  unfold diversityLe
  split_ifs with h
  · simp only [decide_eq_true_eq]
    constructor
    · intro h2
      left
      omega
    · rintro (h2 | ⟨heq, _⟩)
      · omega
      · omega
  · constructor
    · intro h2
      exact Or.inr ⟨by omega, h2⟩
    · rintro (h2 | ⟨_, h3⟩)
      · omega
      · exact h3

/-- The head of the time-sorted list is a minimal-time element of the
original list. -/
theorem sortByTime_head_min (timeOf : α → Int) (l : List α) (x : α)
    (hx : (sortByTime timeOf l).head? = some x) :
    x ∈ l ∧ ∀ y ∈ l, timeOf x ≤ timeOf y := by
  have hpair := sortByTime_pairwise timeOf l
  have hperm : (sortByTime timeOf l).Perm l := List.perm_insertionSort _ l
  cases hs : sortByTime timeOf l with
  | nil => rw [hs] at hx; simp at hx
  | cons a as =>
    rw [hs] at hx
    simp at hx
    subst hx
    rw [hs] at hpair hperm
    constructor
    · exact hperm.mem_iff.mp (List.mem_cons_self _ _)
    · intro y hy
      rcases List.mem_cons.mp (hperm.mem_iff.mpr hy) with rfl | hy2
      · exact le_rfl
      · exact (List.pairwise_cons.mp hpair).1 y hy2

/-- A time-sorted list with no head sorts the empty list. -/
theorem sortByTime_head_none (timeOf : α → Int) (l : List α)
    (h : (sortByTime timeOf l).head? = none) : l = [] := by
  cases hs : sortByTime timeOf l with
  | cons a as => rw [hs] at h; simp at h
  | nil =>
    have hperm : (sortByTime timeOf l).Perm l := List.perm_insertionSort _ l
    rw [hs] at hperm
    exact (hperm.symm.eq_nil)

/-- The fields of a pushed diversity record: its code is the group's key
and its next-flight time is the head of the time-sorted future flights. -/
theorem diversityRecord_some (originCode : String)
    (fs : List BackwardFlightEntry) (now : Int) (r : AirportDiversity)
    (h : diversityRecord originCode fs now = some r) :
    r.code = originCode ∧
    r.nextFlightTime =
      ((sortByTime BackwardFlightEntry.time
        (fs.filter (fun f => now ≤ f.time))).head?).map (·.time) := by
  unfold diversityRecord at h
  split_ifs at h with hcond
  cases fs with
  | nil => simp at h
  | cons f0 rest =>
    simp only [Option.some_inj] at h
    subst h
    exact ⟨rfl, rfl⟩

/-- C5: the diversity ranking is sorted so that adjacent records have
strictly decreasing distinct-destination counts or equal counts with
non-decreasing next-flight times, and each record's next-flight time is the
earliest member event time at or after `now` (the `Infinity` sentinel
`none` when no member time is at or after `now`). -/
theorem c5_diversity_ranking
    (flightsByOrigin : List (String × List BackwardFlightEntry)) (now : Int) :
    List.Chain'
      (fun a b => b.distinctDestinations < a.distinctDestinations ∨
        (a.distinctDestinations = b.distinctDestinations ∧
          nftLe a.nextFlightTime b.nextFlightTime = true))
      (analyzeAirportsByDiversity flightsByOrigin now) ∧
    (∀ r ∈ analyzeAirportsByDiversity flightsByOrigin now,
      ∃ fs, (r.code, fs) ∈ flightsByOrigin ∧
        (∀ t, r.nextFlightTime = some t →
          (now ≤ t ∧ (∃ f ∈ fs, f.time = t) ∧ ∀ f ∈ fs, now ≤ f.time → t ≤ f.time)) ∧
        (r.nextFlightTime = none → ∀ f ∈ fs, f.time < now)) := by
  constructor
  · haveI : IsTotal AirportDiversity (fun a b => diversityLe a b = true) :=
      ⟨fun a b => by
        unfold diversityLe
        split_ifs with h1 h2 h3
        · simp only [decide_eq_true_eq]; omega
        · simp only [decide_eq_true_eq]; omega
        · simp only [decide_eq_true_eq]; omega
        · exact nftLe_total _ _⟩
    haveI : IsTrans AirportDiversity (fun a b => diversityLe a b = true) :=
      ⟨fun a b c hab hbc => by
        rw [diversityLe_iff] at hab hbc ⊢
        rcases hab with h1 | ⟨h1, h1n⟩ <;> rcases hbc with h2 | ⟨h2, h2n⟩
        · left; omega
        · left; omega
        · left; omega
        · exact Or.inr ⟨by omega, nftLe_trans h1n h2n⟩⟩
    have hsorted := List.sorted_insertionSort
      (fun a b : AirportDiversity => diversityLe a b = true)
      (flightsByOrigin.filterMap (fun p => diversityRecord p.1 p.2 now))
    exact (hsorted.imp (fun h => (diversityLe_iff _ _).mp h)).chain'
  · intro r hr
    have hr2 : r ∈ flightsByOrigin.filterMap (fun p => diversityRecord p.1 p.2 now) :=
      (List.perm_insertionSort _ _).mem_iff.mp hr
    obtain ⟨p, hp, hrec⟩ := List.mem_filterMap.mp hr2
    obtain ⟨hcode, hnft⟩ := diversityRecord_some p.1 p.2 now r hrec
    refine ⟨p.2, by rw [hcode]; exact hp, ?_, ?_⟩
    · intro t ht
      rw [ht] at hnft
      obtain ⟨x, hx, hxt⟩ := Option.map_eq_some'.mp hnft.symm
      obtain ⟨hxmem, hxmin⟩ := sortByTime_head_min _ _ x hx
      have hxf := List.mem_filter.mp hxmem
      refine ⟨?_, ⟨x, hxf.1, hxt⟩, ?_⟩
      · have := hxf.2
        simp only [decide_eq_true_eq] at this
        omega
      · intro f hf hnf
        have hfmem : f ∈ p.2.filter (fun f => now ≤ f.time) :=
          List.mem_filter.mpr ⟨hf, by simp only [decide_eq_true_eq]; exact hnf⟩
        have := hxmin f hfmem
        omega
    · intro ht
      rw [ht] at hnft
      have hnone : (sortByTime BackwardFlightEntry.time
          (p.2.filter (fun f => now ≤ f.time))).head? = none := by
        cases hh : (sortByTime BackwardFlightEntry.time
            (p.2.filter (fun f => now ≤ f.time))).head? with
        | none => rfl
        | some x => rw [hh] at hnft; simp at hnft
      have hempty := sortByTime_head_none _ _ hnone
      intro f hf
      by_contra hlt
      have hfmem : f ∈ p.2.filter (fun f => now ≤ f.time) :=
        List.mem_filter.mpr ⟨hf, by simp only [decide_eq_true_eq]; omega⟩
      rw [hempty] at hfmem
      simp at hfmem

/-- What one group contributes to the distance ranking's codes: its key
exactly when it qualifies per the code's rule. -/
theorem distanceRecord_code (dist : Coordinates → Int)
    (p : String × List BackwardFlightEntry) :
    (distanceRecord dist p.1 p.2).map (·.code) =
      (if groupRankedCode p = true then some p.1 else none) := by
  obtain ⟨c, fs⟩ := p
  cases fs with
  | nil => simp [distanceRecord, groupRankedCode]
  | cons f0 rest =>
    by_cases h1 : c = ""
    · subst h1
      simp [distanceRecord, groupRankedCode]
    · by_cases h2 : c = "UNKNOWN"
      · subst h2
        simp [distanceRecord, groupRankedCode]
      · rcases hco : f0.origin.coordinates with _ | co
        · simp [distanceRecord, groupRankedCode, h1, h2, hco]
        · simp [distanceRecord, groupRankedCode, h1, h2, hco]

/-- The codes pushed by the distance analysis are the keys of the
qualifying groups, in entry order. -/
theorem filterMap_distanceRecord_codes (dist : Coordinates → Int) :
    ∀ fbo : List (String × List BackwardFlightEntry),
      ((fbo.filterMap (fun p => distanceRecord dist p.1 p.2)).map (·.code)) =
        (fbo.filter groupRankedCode).map Prod.fst := by
  intro fbo
  induction fbo with
  | nil => rfl
  | cons p rest ih =>
    rw [List.filterMap_cons, List.filter_cons]
    have h := distanceRecord_code dist p
    by_cases hg : groupRankedCode p = true
    · rw [if_pos hg] at h
      rcases hd : distanceRecord dist p.1 p.2 with _ | r
      · rw [hd] at h; simp at h
      · rw [hd] at h
        simp only [Option.map_some'] at h
        rw [if_pos hg]
        simp only [List.map_cons, Option.some_inj.mp h, ih]
    · rw [if_neg hg] at h
      rcases hd : distanceRecord dist p.1 p.2 with _ | r
      · rw [if_neg hg]
        exact ih
      · rw [hd] at h; simp at h

/-- A backward entry for origin group AAA *without* coordinates. -/
def c6noCoord : BackwardFlightEntry :=
  { target := "HAM", live := false, status := .scheduled, code := "X1", time := 0,
    origin := { country := some "Atlantis", code := some "AAA",
                name := some "Alpha City", coordinates := none } }

/-- A backward entry for origin group AAA *with* coordinates. -/
def c6withCoord : BackwardFlightEntry :=
  { target := "HAM", live := false, status := .scheduled, code := "X2", time := 1,
    origin := { country := some "Atlantis", code := some "AAA",
                name := some "Alpha City",
                coordinates := some { latitude := 10, longitude := 20 } } }

/-- A grouped input whose only group has coordinates available on its
second member but not on its first. -/
def c6fbo : List (String × List BackwardFlightEntry) :=
  [("AAA", [c6noCoord, c6withCoord])]

/-- C6, counterexample: group AAA has a known code and coordinates
available (on a member), yet the distance ranking drops it, because the
code inspects only the group's first member. -/
theorem c6_coordinates_counterexample :
    (c6fbo.filter groupRankedClaim).map Prod.fst = ["AAA"] ∧
    analyzeAirportsByDistance c6fbo (fun _ => 0) = [] ∧
    ¬ ∃ r ∈ analyzeAirportsByDistance c6fbo (fun _ => 0), r.code = "AAA" := by
  refine ⟨by decide, by decide, ?_⟩
  decide

/-- C6, amended: the distance ranking contains one record per origin group
with a known code (neither empty nor the `"UNKNOWN"` sentinel) whose
*first* member has coordinates — groups whose first member lacks
coordinates are dropped entirely rather than assigned distance zero — and
the output is sorted ascending by distance. -/
theorem c6_distance_ranking
    (fbo : List (String × List BackwardFlightEntry)) (dist : Coordinates → Int) :
    ((analyzeAirportsByDistance fbo dist).map (·.code)).Perm
      ((fbo.filter groupRankedCode).map Prod.fst) ∧
    List.Chain' (fun a b => a.distance ≤ b.distance)
      (analyzeAirportsByDistance fbo dist) := by
  constructor
  · have hperm :=
      List.perm_insertionSort (fun a b : AirportDistance => a.distance ≤ b.distance)
        (fbo.filterMap (fun p => distanceRecord dist p.1 p.2))
    have hmap := hperm.map (·.code)
    rw [filterMap_distanceRecord_codes] at hmap
    exact hmap
  · haveI : IsTotal AirportDistance (fun a b => a.distance ≤ b.distance) :=
      ⟨fun a b => le_total _ _⟩
    haveI : IsTrans AirportDistance (fun a b => a.distance ≤ b.distance) :=
      ⟨fun a b c hab hbc => le_trans hab hbc⟩
    exact (List.sorted_insertionSort _ _).chain'

/-- The spec's own four-arrival scenario: origins FRA, MUC (twice) and CDG
relative to `t0 = 1000000`. -/
def c10exFlights : List FEntry :=
  [⟨1000000, some "FRA"⟩, ⟨1300000, some "MUC"⟩,
   ⟨3400000, some "MUC"⟩, ⟨1600000, some "CDG"⟩]

/-- The single best window `findOptimalWindows` returns on `c10exFlights`
at `now = 1000000`. -/
def c10exWindow : TimeWindow FEntry :=
  { start := 1000000, stop := 2800000, destinations := ["FRA", "MUC", "CDG"],
    flights := [⟨1000000, some "FRA"⟩, ⟨1300000, some "MUC"⟩, ⟨1600000, some "CDG"⟩] }

/-- Witness for the C10 theorem at the spec's scenario input. -/
theorem c10_members_contiguous_sorted_witness :
    (∃ pre post, sortByTime FEntry.time c10exFlights = pre ++ c10exWindow.flights ++ post ∧
        ∀ g ∈ post, c10exWindow.stop < FEntry.time g) ∧
    List.Chain' (fun a b => FEntry.time a ≤ FEntry.time b) c10exWindow.flights ∧
    (∃ f rest2, c10exWindow.flights = f :: rest2 ∧ FEntry.time f = c10exWindow.start) ∧
    (∀ g ∈ c10exWindow.flights,
      c10exWindow.start ≤ FEntry.time g ∧ FEntry.time g ≤ c10exWindow.stop) :=
  c10_members_contiguous_sorted c10exFlights FEntry.time FEntry.key 1000000 c10exWindow
    (by decide)

/-! ## Aircraft type scanner (`src/operations/flights-by-type.ts`)

`api.getFlights(null, null, null, aircraftType)` is the abstract parameter
`getFlights`; `flight.getDistanceFrom(entity)` (provider library code) is
the abstract `dist`.  `Promise.all` over `p-limit`-wrapped requests
resolves to the per-type results in request order, so the merged list is
the flattening of the per-type lists in order. -/

/-- The fields of a live provider flight the scanner reads. -/
structure LiveFlight where
  aircraftCode : String
  latitude : Int
  longitude : Int
  onGround : Int
deriving DecidableEq, Repr

/-- `flightsByType(api, entity, aircraftType)`: pair each fetched flight
with its distance from the entity and sort ascending by distance. -/
def flightsByType (getFlights : String → List LiveFlight) (dist : LiveFlight → Int)
    (aircraftType : String) : List (LiveFlight × Int) :=
  List.insertionSort (fun a b => a.2 ≤ b.2)
    ((getFlights aircraftType).map (fun flight => (flight, dist flight)))

/-- `flightsByTypes(api, entity, ...aircraftTypes)` of
`flights-by-type.ts`: the merged distance-sorted results together with the
missing-type list (`aircraftTypes.filter(a => !seen.has(a))` over the set
of observed aircraft codes). -/
def flightsByTypes (getFlights : String → List LiveFlight) (dist : LiveFlight → Int)
    (aircraftTypes : List String) : List (LiveFlight × Int) × List String :=
  let results := (aircraftTypes.map (flightsByType getFlights dist)).flatten
  let sorted := List.insertionSort (fun a b : LiveFlight × Int => a.2 ≤ b.2) results
  let seen := results.map (fun r => r.1.aircraftCode)
  let missing := aircraftTypes.filter (fun a => !(seen.contains a))
  (sorted, missing)

/-- The observed codes of the per-type sorted result lists are the observed
codes of the raw fetched flights. -/
theorem mem_observed_codes_iff (getFlights : String → List LiveFlight)
    (dist : LiveFlight → Int) (aircraftTypes : List String) (t : String) :
    (t ∈ ((aircraftTypes.map (flightsByType getFlights dist)).flatten).map
        (fun r => r.1.aircraftCode) ↔
      t ∈ ((aircraftTypes.map getFlights).flatten).map (·.aircraftCode)) := by
  simp only [List.mem_map, List.mem_flatten]
  constructor
  · rintro ⟨r, ⟨l, ⟨ty, hty, rfl⟩, hrl⟩, rfl⟩
    have hr2 : r ∈ (getFlights ty).map (fun flight => (flight, dist flight)) :=
      (List.perm_insertionSort _ _).mem_iff.mp hrl
    obtain ⟨f, hf, rfl⟩ := List.mem_map.mp hr2
    exact ⟨f, ⟨getFlights ty, ⟨ty, hty, rfl⟩, hf⟩, rfl⟩
  · rintro ⟨f, ⟨l, ⟨ty, hty, rfl⟩, hfl⟩, rfl⟩
    refine ⟨(f, dist f), ⟨flightsByType getFlights dist ty, ⟨ty, hty, rfl⟩, ?_⟩, rfl⟩
    exact (List.perm_insertionSort _ _).mem_iff.mpr (List.mem_map_of_mem _ hfl)

/-- The scenario fetch of the claim: type A and type C each have one live
flight, type B has none. -/
def c8exFetch : String → List LiveFlight :=
  fun t =>
    if t = "A" then [{ aircraftCode := "A", latitude := 1, longitude := 2, onGround := 0 }]
    else if t = "C" then
      [{ aircraftCode := "C", latitude := 3, longitude := 4, onGround := 1 }]
    else []

/-- C8: the reported missing list holds exactly the requested codes that do
not occur among the aircraft codes of the merged fetched flights; for
requested `["A","B","C"]` with flights observed only for A and C, it is
exactly `["B"]`. -/
theorem c8_missing_types (getFlights : String → List LiveFlight)
    (dist : LiveFlight → Int) (aircraftTypes : List String) :
    (∀ t, t ∈ (flightsByTypes getFlights dist aircraftTypes).2 ↔
      (t ∈ aircraftTypes ∧
        t ∉ ((aircraftTypes.map getFlights).flatten).map (·.aircraftCode))) ∧
    (flightsByTypes c8exFetch (fun _ => 0) ["A", "B", "C"]).2 = ["B"] := by
  constructor
  · intro t
    show t ∈ aircraftTypes.filter _ ↔ _
    rw [List.mem_filter]
    have hb : ∀ s : List String, ((!(s.contains t)) = true ↔ t ∉ s) := fun s => by simp
    constructor
    · rintro ⟨ht, hc⟩
      exact ⟨ht, fun hmem => (hb _).mp hc
        ((mem_observed_codes_iff getFlights dist aircraftTypes t).mpr hmem)⟩
    · rintro ⟨ht, hmem⟩
      exact ⟨ht, (hb _).mpr
        (fun hx => hmem ((mem_observed_codes_iff getFlights dist aircraftTypes t).mp hx))⟩
  · decide

/-- C9: every ranking and optimizer function returns an empty result on
empty input and, being a total function, cannot throw
(`analyzeDeparturesByDiversity` returns the JS `null`, modelled as
`none`). -/
theorem c9_empty_inputs (β : Type) (timeOf : β → Int) (getKey : β → Option String)
    (now : Int) (dist : Coordinates → Int) (src : String) :
    findOptimalWindows ([] : List β) timeOf getKey now = [] ∧
    analyzeAirportsByDistance [] dist = [] ∧
    analyzeAirportsByDiversity [] now = [] ∧
    analyzeDeparturesByDiversity [] src now = none :=
  ⟨rfl, rfl, rfl, rfl⟩

/-! ## Retry with exponential backoff (`flight-processing.ts` and
`src/operations/shared/constants.ts`)

The underlying fetch is modelled as a function from the call index
(0-based) to either the raw flights or a thrown error's string
representation.  A run of the wrapper is summarised as a `RetryTrace`: the
returned entries, the number of underlying calls made, and the `sleep`
durations in order.  The `while (attempts < MAX_RETRY_ATTEMPTS)` loop is
embedded with the remaining-iterations count as fuel. -/

/-- `MAX_RETRY_ATTEMPTS = 3` of `constants.ts`. -/
def MAX_RETRY_ATTEMPTS : Nat := 3

/-- `EXPONENTIAL_BACKOFF_BASE_MS = 1000` of `constants.ts`. -/
def EXPONENTIAL_BACKOFF_BASE_MS : Nat := 1000

/-- `EXPONENTIAL_BACKOFF_MULTIPLIER = 2` of `constants.ts`. -/
def EXPONENTIAL_BACKOFF_MULTIPLIER : Nat := 2

/-- Character-list test that `pat` begins the list. -/
def startsWithChars : List Char → List Char → Bool
  | [], _ => true
  | _ :: _, [] => false
  | p :: ps, c :: cs => p = c && startsWithChars ps cs

/-- Character-list substring test. -/
def hasSubChars (pat : List Char) : List Char → Bool
  | [] => pat.isEmpty
  | c :: cs => startsWithChars pat (c :: cs) || hasSubChars pat cs

/-- `String(error).includes("429")` of the retry wrappers. -/
def errorIncludes429 (e : String) : Bool := hasSubChars "429".data e.data

/-- The observable outcome of one retry-wrapper run. -/
structure RetryTrace (α : Type) where
  result : List α
  calls : Nat
  delays : List Nat
deriving DecidableEq, Repr

/-- The retry loop shared by `fetchArrivalsWithRetry` and
`fetchDeparturesWithRetry`: while attempts remain, call the fetch; return
its mapped payload on success; on an error containing "429", sleep
`EXPONENTIAL_BACKOFF_BASE_MS * EXPONENTIAL_BACKOFF_MULTIPLIER ^
(attempts - 1)` (with `attempts` the post-increment counter) and retry; on
any other error stop; exhausted attempts return `[]`. -/
def retryGo (fetch : Nat → Except String (List α)) :
    Nat → Nat → Nat → List Nat → RetryTrace α
  | 0, _, calls, delays => { result := [], calls := calls, delays := delays }
  | fuel + 1, attempts, calls, delays =>
    match fetch calls with
    | .ok flights => { result := flights, calls := calls + 1, delays := delays }
    | .error e =>
      if errorIncludes429 e then
        retryGo fetch fuel (attempts + 1) (calls + 1)
          (delays ++
            [EXPONENTIAL_BACKOFF_BASE_MS * EXPONENTIAL_BACKOFF_MULTIPLIER ^ attempts])
      else { result := [], calls := calls + 1, delays := delays }

/-- `fetchArrivalsWithRetry(api, airport)` of `flight-processing.ts`: the
retry loop over `getArrivals`, mapping successes through
`transformToBackwardFlightEntry`. -/
def fetchArrivalsWithRetry (getArrivalsAt : Nat → Except String (List RawFlight))
    (airport : String) : RetryTrace BackwardFlightEntry :=
  retryGo
    (fun n => (getArrivalsAt n).map
      (fun flights => flights.map (fun f => transformToBackwardFlightEntry f airport)))
    MAX_RETRY_ATTEMPTS 0 0 []

/-- `fetchDeparturesWithRetry(api, airport)` of `flight-processing.ts`:
the retry loop over `getDepartures`, mapping successes through
`transformToForwardFlightEntry`. -/
def fetchDeparturesWithRetry (getDeparturesAt : Nat → Except String (List RawFlight)) :
    RetryTrace ForwardFlightEntry :=
  retryGo
    (fun n => (getDeparturesAt n).map (fun flights => flights.map transformToForwardFlightEntry))
    MAX_RETRY_ATTEMPTS 0 0 []

/-- The loop makes at most `fuel` further calls. -/
theorem retryGo_calls_le (fetch : Nat → Except String (List α)) :
    ∀ (fuel attempts calls : Nat) (delays : List Nat),
      (retryGo fetch fuel attempts calls delays).calls ≤ calls + fuel := by
  intro fuel
  induction fuel with
  | zero => intro attempts calls delays; simp [retryGo]
  | succ n ih =>
    intro attempts calls delays
    rcases hf : fetch calls with e | fl
    · simp only [retryGo, hf]
      by_cases h429 : errorIncludes429 e = true
      · rw [if_pos h429]
        exact le_trans (ih (attempts + 1) (calls + 1) _) (by omega)
      · rw [if_neg h429]
        simp
    · simp only [retryGo, hf]
      simp

/-- The sleeps the loop appends are the consecutive exponential-backoff
values starting at exponent `attempts`. -/
theorem retryGo_delays (fetch : Nat → Except String (List α)) :
    ∀ (fuel attempts calls : Nat) (delays : List Nat),
      ∃ k, k ≤ fuel ∧
        (retryGo fetch fuel attempts calls delays).delays =
          delays ++ (List.range k).map
            (fun i =>
              EXPONENTIAL_BACKOFF_BASE_MS *
                EXPONENTIAL_BACKOFF_MULTIPLIER ^ (attempts + i)) := by
  intro fuel
  induction fuel with
  | zero =>
    intro attempts calls delays
    exact ⟨0, le_rfl, by simp [retryGo]⟩
  | succ n ih =>
    intro attempts calls delays
    rcases hf : fetch calls with e | fl
    · simp only [retryGo, hf]
      by_cases h429 : errorIncludes429 e = true
      · rw [if_pos h429]
        obtain ⟨k, hk, hd⟩ := ih (attempts + 1) (calls + 1)
          (delays ++
            [EXPONENTIAL_BACKOFF_BASE_MS * EXPONENTIAL_BACKOFF_MULTIPLIER ^ attempts])
        refine ⟨k + 1, by omega, ?_⟩
        rw [hd, List.append_assoc, List.singleton_append]
        have hlist :
            (EXPONENTIAL_BACKOFF_BASE_MS * EXPONENTIAL_BACKOFF_MULTIPLIER ^ attempts) ::
              (List.range k).map
                (fun i =>
                  EXPONENTIAL_BACKOFF_BASE_MS *
                    EXPONENTIAL_BACKOFF_MULTIPLIER ^ (attempts + 1 + i)) =
            (List.range (k + 1)).map
              (fun i =>
                EXPONENTIAL_BACKOFF_BASE_MS *
                  EXPONENTIAL_BACKOFF_MULTIPLIER ^ (attempts + i)) := by
          rw [List.range_succ_eq_map, List.map_cons, List.map_map]
          congr 1
          apply List.map_congr_left
          intro a ha
          simp only [Function.comp_apply, Nat.succ_eq_add_one]
          have hadd : attempts + 1 + a = attempts + (a + 1) := by omega
          rw [hadd]
        rw [hlist]
      · rw [if_neg h429]
        exact ⟨0, by omega, by simp⟩
    · simp only [retryGo, hf]
      exact ⟨0, by omega, by simp⟩

/-- When every available call fails, the loop returns the empty list. -/
theorem retryGo_all_errors (fetch : Nat → Except String (List α)) :
    ∀ (fuel attempts calls : Nat) (delays : List Nat),
      (∀ j, calls ≤ j → j < calls + fuel → ∃ e, fetch j = .error e) →
      (retryGo fetch fuel attempts calls delays).result = [] := by
  intro fuel
  induction fuel with
  | zero => intro attempts calls delays _; simp [retryGo]
  | succ n ih =>
    intro attempts calls delays h
    obtain ⟨e, he⟩ := h calls le_rfl (by omega)
    rcases hf : fetch calls with e2 | fl
    · simp only [retryGo, hf]
      by_cases h429 : errorIncludes429 e2 = true
      · rw [if_pos h429]
        exact ih (attempts + 1) (calls + 1) _ (fun j hj1 hj2 => h j (by omega) (by omega))
      · rw [if_neg h429]
    · rw [hf] at he
      simp at he

/-- Every call of the loop except the last one failed with a 429 error. -/
theorem retryGo_mid_calls_429 (fetch : Nat → Except String (List α)) :
    ∀ (fuel attempts calls : Nat) (delays : List Nat) (j : Nat),
      calls ≤ j → j + 1 < (retryGo fetch fuel attempts calls delays).calls →
      ∃ e, fetch j = .error e ∧ errorIncludes429 e = true := by
  intro fuel
  induction fuel with
  | zero =>
    intro attempts calls delays j hj hlt
    simp [retryGo] at hlt
    omega
  | succ n ih =>
    intro attempts calls delays j hj hlt
    rcases hf : fetch calls with e | fl
    · simp only [retryGo, hf] at hlt
      by_cases h429 : errorIncludes429 e = true
      · rw [if_pos h429] at hlt
        rcases Nat.eq_or_lt_of_le hj with rfl | hjgt
        · exact ⟨e, hf, h429⟩
        · exact ih (attempts + 1) (calls + 1) _ j (by omega) hlt
      · rw [if_neg h429] at hlt
        simp at hlt
        omega
    · simp only [retryGo, hf] at hlt
      simp at hlt
      omega

/-- A non-retryable first error stops the loop after one call, with no
sleep. -/
theorem retryGo_nonretryable (fetch : Nat → Except String (List α))
    (fuel attempts calls : Nat) (delays : List Nat) (e : String)
    (hf : fetch calls = .error e) (h429 : errorIncludes429 e = false) :
    retryGo fetch (fuel + 1) attempts calls delays =
      { result := [], calls := calls + 1, delays := delays } := by
  simp only [retryGo, hf, h429]
  rw [if_neg (by simp [h429])]

/-- Mapping a fetch's successes leaves its errors unchanged. -/
theorem mappedFetch_error_iff {β : Type} (getA : Nat → Except String (List RawFlight))
    (F : List RawFlight → List β) (j : Nat) (e : String) :
    ((getA j).map F = .error e) ↔ getA j = .error e := by
  rcases h : getA j with e2 | fl <;> simp [Except.map]

/-- The scenario fetch of the claim: two consecutive rate-limit failures,
then a success. -/
def c4scenario (l : List RawFlight) : Nat → Except String (List RawFlight)
  | 0 => .error "HTTP error 429: Too Many Requests"
  | 1 => .error "HTTP error 429: Too Many Requests"
  | _ => .ok l

/-- C4: both retry wrappers make at most `MAX_RETRY_ATTEMPTS` underlying
calls; a first error without "429" stops after exactly one call with no
sleep; when every available attempt fails the wrapper returns the empty
list; the `j`-th sleep is `base * multiplier ^ j` (the backoff formula at
attempt `j + 1`); every call before the last failed with a 429 error; and
two consecutive 429 failures followed by a success make exactly 3 calls
with the strictly increasing delays `[1000, 2000]` and return the mapped
payload. -/
theorem c4_retry_backoff (getA getD : Nat → Except String (List RawFlight))
    (airport : String) (l : List RawFlight) :
    ((fetchArrivalsWithRetry getA airport).calls ≤ MAX_RETRY_ATTEMPTS ∧
      (fetchDeparturesWithRetry getD).calls ≤ MAX_RETRY_ATTEMPTS) ∧
    (∀ e, getA 0 = .error e → errorIncludes429 e = false →
      fetchArrivalsWithRetry getA airport =
        { result := [], calls := 1, delays := [] }) ∧
    (∀ e, getD 0 = .error e → errorIncludes429 e = false →
      fetchDeparturesWithRetry getD = { result := [], calls := 1, delays := [] }) ∧
    ((∀ j, j < MAX_RETRY_ATTEMPTS → ∃ e, getA j = Except.error e) →
      (fetchArrivalsWithRetry getA airport).result = []) ∧
    ((∀ j, j < MAX_RETRY_ATTEMPTS → ∃ e, getD j = Except.error e) →
      (fetchDeparturesWithRetry getD).result = []) ∧
    (∀ j d, ((fetchArrivalsWithRetry getA airport).delays).get? j = some d →
      d = EXPONENTIAL_BACKOFF_BASE_MS * EXPONENTIAL_BACKOFF_MULTIPLIER ^ j) ∧
    (∀ j, j + 1 < (fetchArrivalsWithRetry getA airport).calls →
      ∃ e, getA j = Except.error e ∧ errorIncludes429 e = true) ∧
    (fetchArrivalsWithRetry (c4scenario l) airport =
      { result := l.map (fun f => transformToBackwardFlightEntry f airport),
        calls := 3, delays := [1000, 2000] } ∧
      (1000 : Nat) < 2000) := by
  refine ⟨⟨?_, ?_⟩, ?_, ?_, ?_, ?_, ?_, ?_, ?_, ?_⟩
  · simpa using retryGo_calls_le
      (fun n => (getA n).map
        (fun flights => flights.map (fun f => transformToBackwardFlightEntry f airport)))
      MAX_RETRY_ATTEMPTS 0 0 []
  · simpa using retryGo_calls_le
      (fun n => (getD n).map (fun flights => flights.map transformToForwardFlightEntry))
      MAX_RETRY_ATTEMPTS 0 0 []
  · intro e he h429
    exact retryGo_nonretryable _ 2 0 0 [] e
      ((mappedFetch_error_iff getA _ 0 e).mpr he) h429
  · intro e he h429
    exact retryGo_nonretryable _ 2 0 0 [] e
      ((mappedFetch_error_iff getD _ 0 e).mpr he) h429
  · intro h
    exact retryGo_all_errors _ MAX_RETRY_ATTEMPTS 0 0 []
      (fun j hj1 hj2 => by
        obtain ⟨e, he⟩ := h j (by omega)
        exact ⟨e, (mappedFetch_error_iff getA _ j e).mpr he⟩)
  · intro h
    exact retryGo_all_errors _ MAX_RETRY_ATTEMPTS 0 0 []
      (fun j hj1 hj2 => by
        obtain ⟨e, he⟩ := h j (by omega)
        exact ⟨e, (mappedFetch_error_iff getD _ j e).mpr he⟩)
  · intro j d hjd
    obtain ⟨k, hk, hd⟩ := retryGo_delays
      (fun n => (getA n).map
        (fun flights => flights.map (fun f => transformToBackwardFlightEntry f airport)))
      MAX_RETRY_ATTEMPTS 0 0 []
    have hjd2 : ((retryGo
        (fun n => (getA n).map
          (fun flights => flights.map (fun f => transformToBackwardFlightEntry f airport)))
        MAX_RETRY_ATTEMPTS 0 0 []).delays).get? j = some d := hjd
    rw [hd, List.nil_append, List.get?_eq_getElem?, List.getElem?_map] at hjd2
    by_cases hjk : j < k
    · rw [List.getElem?_range hjk] at hjd2
      simp at hjd2
      omega
    · rw [List.getElem?_eq_none (by simpa using Nat.not_lt.mp hjk)] at hjd2
      simp at hjd2
  · intro j hlt
    have hlt2 : j + 1 < (retryGo
        (fun n => (getA n).map
          (fun flights => flights.map (fun f => transformToBackwardFlightEntry f airport)))
        MAX_RETRY_ATTEMPTS 0 0 []).calls := hlt
    obtain ⟨e, he, h429⟩ := retryGo_mid_calls_429
      (fun n => (getA n).map
        (fun flights => flights.map (fun f => transformToBackwardFlightEntry f airport)))
      MAX_RETRY_ATTEMPTS 0 0 [] j (Nat.zero_le j) hlt2
    exact ⟨e, (mappedFetch_error_iff getA _ j e).mp he, h429⟩
  · rfl
  · norm_num

end Skycard
